import Mathlib

/-!
Shallow embedding of the node-tunnel control-plane client and controller
from `src/node-tunnel/lib/tunnel/common.py`,
`src/node-tunnel/lib/tunnel/controller/__init__.py` and
`src/node-tunnel/lib/tunnel/node/__init__.py`.

The Python source is an untested sketch: response decoding lacks `await`s,
one lookup spells `self.name` where the session only has `self.client.name`,
and `NetworkPeer` is constructed without its `preshared_key` argument.  The
embedding models the data and control flow these calls describe — guard
order, branching, the bodies of the store writes, and the try/finally
structure — which is what the claims are about; the Python calling-convention
slips are elided and noted at the definitions they touch.

Store interaction is modelled as a trace: every client operation returns the
list of store calls it issued together with its outcome, and lookup results
and watch-event streams are passed in as inputs (a store double).
-/

namespace Tunnel

/-- Session-level failure conditions of the client operations, from
`common.py`: `SessionTokenExpiredError`, `NoSeedingPeersError`, a raised
`ValueError`, a non-404 `aiohttp.ClientResponseError` (which propagates),
and a `binascii.Error` from base64 decoding. -/
inductive SessErr where
  | tokenExpired
  | noSeedingPeers
  | valueError
  | storeError (status : Nat)
  | decodeError
deriving DecidableEq

/-- Result of one client operation: a returned value or a raised error. -/
inductive Outcome (α : Type) where
  | ok (v : α)
  | err (e : SessErr)
deriving DecidableEq

/-- A client operation observed through a store double: the trace of store
calls it issued, and its outcome. -/
structure OpRes (C : Type) (α : Type) where
  calls : List C
  outcome : Outcome α
deriving DecidableEq

/-- Result of a lookup-before-create GET against the store: the stored
object (its `spec.publicKey` field for `NetworkPeer` records), a 404
not-found, or another HTTP error status (which propagates). -/
inductive LookupResult where
  | found (publicKey : String)
  | notFound
  | httpError (status : Nat)
deriving DecidableEq

/-- Value of one character of the standard base64 alphabet, as read by
`base64.b64decode`. -/
def b64Val (c : Char) : Option Nat :=
  let n := c.toNat
  if 65 ≤ n ∧ n ≤ 90 then some (n - 65)
  else if 97 ≤ n ∧ n ≤ 122 then some (n - 97 + 26)
  else if 48 ≤ n ∧ n ≤ 57 then some (n - 48 + 52)
  else if n = 43 then some 62
  else if n = 47 then some 63
  else none

/-- One character of the standard base64 alphabet, as written by
`base64.b64encode`. -/
def b64Chr (n : Nat) : Char :=
  if n < 26 then Char.ofNat (65 + n)
  else if n < 52 then Char.ofNat (97 + (n - 26))
  else if n < 62 then Char.ofNat (48 + (n - 52))
  else if n = 62 then Char.ofNat 43
  else Char.ofNat 47

/-- The base64 padding character. -/
def padChar : Char := '='

/-- Standard base64 encoding of a byte sequence: three bytes to four
characters, trailing groups padded with `=` (`base64.b64encode`). -/
def base64EncodeChars : List Nat → List Char
  | [] => []
  | [b0] => [b64Chr (b0 / 4), b64Chr (b0 % 4 * 16), padChar, padChar]
  | [b0, b1] => [b64Chr (b0 / 4), b64Chr (b0 % 4 * 16 + b1 / 16), b64Chr (b1 % 16 * 4), padChar]
  | b0 :: b1 :: b2 :: rest =>
      b64Chr (b0 / 4) :: b64Chr (b0 % 4 * 16 + b1 / 16) :: b64Chr (b1 % 16 * 4 + b2 / 64) ::
        b64Chr (b2 % 64) :: base64EncodeChars rest

/-- Encoding `base64.b64encode(...).decode("utf-8")` of a byte sequence. -/
def base64Encode (bs : List Nat) : String := String.mk (base64EncodeChars bs)

/-- Standard base64 decoding: four characters to three bytes, handling the
trailing padding; `none` models a raised `binascii.Error`. -/
def base64DecodeChars : List Char → Option (List Nat)
  | [] => some []
  | c0 :: c1 :: c2 :: c3 :: rest =>
    match b64Val c0, b64Val c1 with
    | some v0, some v1 =>
      if c2 = padChar ∧ c3 = padChar ∧ rest = [] then some [v0 * 4 + v1 / 16]
      else
        match b64Val c2 with
        | some v2 =>
          if c3 = padChar ∧ rest = [] then some [v0 * 4 + v1 / 16, v1 % 16 * 16 + v2 / 4]
          else
            match b64Val c3 with
            | some v3 =>
              match base64DecodeChars rest with
              | some tl =>
                  some ((v0 * 4 + v1 / 16) :: (v1 % 16 * 16 + v2 / 4) :: (v2 % 4 * 64 + v3) :: tl)
              | none => none
            | none => none
        | none => none
    | _, _ => none
  | _ => none

/-- Decoding `base64.b64decode` of a string. -/
def base64Decode (s : String) : Option (List Nat) := base64DecodeChars s.data

/-- Lower-case hexadecimal digit, as produced by `bytes.hex()`. -/
def hexDigitChar (n : Nat) : Char :=
  if n < 10 then Char.ofNat (48 + n) else Char.ofNat (87 + n)

/-- Two lower-case hex digits per byte. -/
def bytesHexChars : List Nat → List Char
  | [] => []
  | b :: rest => hexDigitChar (b / 16) :: hexDigitChar (b % 16) :: bytesHexChars rest

/-- Rendering `address.hex()`: two lower-case hex digits per byte.  The source's
`"0>8"` / `"0>32"` field padding is the identity on 4- and 16-byte input
(8 and 32 digits respectively) and is not modelled separately. -/
def bytesHex (bs : List Nat) : String := String.mk (bytesHexChars bs)

/-- The string "MODIFIED", the only watch event kind the client acts on. -/
def modifiedStr : String := "MODIFIED"

/-- The fulfilled lifecycle state. -/
def fulfilledStr : String := "fulfilled"

/-- JSON-patch operation name used by `register_node`. -/
def opReplace : String := "replace"

/-- JSON-patch path of the public key field. -/
def publicKeyPath : String := "/spec/publicKey"

def dashStr : String := "-"

def eqStr : String := "="

def emptyStr : String := ""

def trueStr : String := "true"

def falseStr : String := "false"

/-- Constant `_k8s_api_group` from `tunnel/__init__.py`. -/
def k8s_api_group : String := "k8s.peterhansen.io"

/-- The label key of the single `_k8s_label_db` entry, `seeding_peer`. -/
def seedingPeerLabelKey : String := "networkpeer." ++ k8s_api_group ++ "/seeding-peer"

/-- Selector `_k8s_label("seeding_peer", value)`: the db entry is bool-valued, so the
value encodes as "true"/"false". -/
def k8s_label_seeding_peer (value : Bool) : String :=
  seedingPeerLabelKey ++ eqStr ++ (if value then trueStr else falseStr)

/-- One operation of a JSON-patch body (`op`, `path`, `value`). -/
structure PatchOp where
  op : String
  path : String
  value : String
deriving DecidableEq

/-- Store calls `register_node` can issue.  The source's lookup URL spells
`self.namespace`/`self.name` where the session only carries `self.client`;
the embedding uses the client's name, which every other line of the
function uses. -/
inductive RegisterCall where
  | getPeer (name : String)
  | createPeer (name : String) (publicKey : String) (addresses endpoints : List String)
  | patchPeer (name : String) (ops : List PatchOp)
deriving DecidableEq

/-- From `ControllerClientSession.register_node`: token guard; GET of the node's
record (404 is the only tolerated lookup failure); if absent, POST a new
record with the base64 of the supplied key and empty address/endpoint
lists; if present and the stored key decodes to something different, PATCH
with a single replace of `/spec/publicKey`; if present and equal, no
write. -/
def register_node (expires now : Nat) (clientName : String) (lookup : LookupResult)
    (public_key : List Nat) : OpRes RegisterCall Unit :=
  if expires < now then ⟨[], .err .tokenExpired⟩
  else
    match lookup with
    | .httpError s => ⟨[.getPeer clientName], .err (.storeError s)⟩
    | .notFound =>
      ⟨[.getPeer clientName, .createPeer clientName (base64Encode public_key) [] []], .ok ()⟩
    | .found stored =>
      match base64Decode stored with
      | none => ⟨[.getPeer clientName], .err .decodeError⟩
      | some k =>
        if public_key = k then ⟨[.getPeer clientName], .ok ()⟩
        else
          ⟨[.getPeer clientName,
            .patchPeer clientName [⟨opReplace, publicKeyPath, base64Encode public_key⟩]],
            .ok ()⟩

/-- The write calls (creates and patches) of a `register_node` trace. -/
def isRegisterWrite (c : RegisterCall) : Bool :=
  match c with
  | .getPeer _ => false
  | _ => true

def registerWrites (calls : List RegisterCall) : List RegisterCall :=
  calls.filter isRegisterWrite

/-- A stored `NetworkPeer` record as the store double holds it: the wire
fields of its spec plus its metadata labels. -/
structure PeerRecord where
  name : String
  publicKey : String
  addresses : List String
  endpoints : List (String × Nat)
  labels : List (String × String)
deriving DecidableEq

/-- The in-memory `NetworkPeer` value built by `get_seeding_peers`.  The
source dataclass also declares a `preshared_key` field, which
`get_seeding_peers` never populates; it is omitted here. -/
structure NetworkPeer where
  name : String
  public_key : List Nat
  addresses : List String
  endpoints : List (String × Nat)
deriving DecidableEq

/-- Rendering `key=value` of one stored label, as the store's label
selector matches it. -/
def labelPairStr (kv : String × String) : String := kv.1 ++ eqStr ++ kv.2

/-- The store double's label-selector matching: a record matches when one
of its labels renders exactly as the selector string. -/
def labelMatches (selector : String) (labels : List (String × String)) : Bool :=
  labels.any (fun kv => labelPairStr kv = selector)

/-- The records the store returns for the seeding-peer label selector. -/
def seedingMatches (records : List PeerRecord) : List PeerRecord :=
  records.filter (fun r => labelMatches (k8s_label_seeding_peer true) r.labels)

/-- Decoding one matching record into a `NetworkPeer`: base64-decode the
stored public key, carry addresses and endpoints over unchanged. -/
def decodePeer (r : PeerRecord) : Option NetworkPeer :=
  (base64Decode r.publicKey).map (fun k => ⟨r.name, k, r.addresses, r.endpoints⟩)

/-- All-ok sequencing of an option-valued map, mirroring the record-by-record
decoding of the result set. -/
def mapOption {α β : Type} (f : α → Option β) : List α → Option (List β)
  | [] => some []
  | a :: l => Option.bind (f a) (fun b => Option.map (fun bs => b :: bs) (mapOption f l))

/-- The single store call `get_seeding_peers` issues. -/
inductive SeedCall where
  | listPeers (selector : String)
deriving DecidableEq

/-- From `ControllerClientSession.get_seeding_peers`: token guard; list the
`NetworkPeer` records matching the seeding-peer label; raise
`NoSeedingPeersError` when the result set is empty, else return the decoded
peers.  (The source decodes lazily inside a generator; the embedding
decodes the whole result set, which the claims quantify over.) -/
def get_seeding_peers (expires now : Nat) (records : List PeerRecord) :
    OpRes SeedCall (List NetworkPeer) :=
  if expires < now then ⟨[], .err .tokenExpired⟩
  else if (seedingMatches records).length = 0 then
    ⟨[.listPeers (k8s_label_seeding_peer true)], .err .noSeedingPeers⟩
  else
    match mapOption decodePeer (seedingMatches records) with
    | some peers => ⟨[.listPeers (k8s_label_seeding_peer true)], .ok peers⟩
    | none => ⟨[.listPeers (k8s_label_seeding_peer true)], .err .decodeError⟩

/-- One event of a single-object watch stream: its kind, and the watched
object's `status.state` and `status.address`. -/
structure WatchEvent where
  type : String
  state : String
  address : String
deriving DecidableEq

/-- The watch loop of `ipam_request_address_allocation`: skip every event
whose kind is not "MODIFIED"; on a modified event whose state is
`fulfilled`, return the packed form of the status address (`packed` stands
for `ipaddress.ip_address(...).packed`, an external collaborator); `none`
models a stream that ends (or never fulfills) — the loop is still
waiting. -/
def allocationWatchResult (packed : String → List Nat) : List WatchEvent → Option (List Nat)
  | [] => none
  | e :: rest =>
    if e.type ≠ modifiedStr then allocationWatchResult packed rest
    else if e.state = fulfilledStr then some (packed e.address)
    else allocationWatchResult packed rest

/-- Store calls of `ipam_request_address_allocation`: the POST creating the
allocation (owned by the client) and the single-object watch. -/
inductive AllocCall where
  | createAllocation (owner : String)
  | watchAllocation
deriving DecidableEq

/-- From `ControllerClientSession.ipam_request_address_allocation`: token guard;
create an allocation owned by this client; watch it and return the packed
address of the first fulfilling modification. -/
def ipam_request_address_allocation (expires now : Nat) (owner : String)
    (packed : String → List Nat) (events : List WatchEvent) :
    OpRes AllocCall (Option (List Nat)) :=
  if expires < now then ⟨[], .err .tokenExpired⟩
  else ⟨[.createAllocation owner, .watchAllocation], .ok (allocationWatchResult packed events)⟩

/-- Store calls of `ipam_request_address_lease`. -/
inductive LeaseCall where
  | getLease (name : String)
  | createLease (name : String) (owner : String) (address : List Nat) (duration : Nat)
  | watchLease (name : String)
deriving DecidableEq

/-- The deterministic lease name: owner name, a dash, and the hex of the
packed address (`f-string` of `common.py` lines 326/329). -/
def leaseName (owner : String) (addr : List Nat) : String :=
  owner ++ dashStr ++ bytesHex addr

/-- The body of `ipam_request_address_lease` after validation: GET the lease
by its deterministic name (404 tolerated, other errors propagate); when
absent, POST the lease and watch it until fulfilled (the call returns
nothing on success); when present, no-op success. -/
def ipam_lease_body (owner : String) (addr : List Nat) (dur : Nat) (lookup : LookupResult) :
    OpRes LeaseCall Unit :=
  match lookup with
  | .httpError s => ⟨[.getLease (leaseName owner addr)], .err (.storeError s)⟩
  | .found _ => ⟨[.getLease (leaseName owner addr)], .ok ()⟩
  | .notFound =>
    ⟨[.getLease (leaseName owner addr),
      .createLease (leaseName owner addr) owner addr dur,
      .watchLease (leaseName owner addr)], .ok ()⟩

/-- From `ControllerClientSession.ipam_request_address_lease`: token guard, then
the packed-address length check (4 bytes → IPv4 lease name, 16 bytes → IPv6
lease name, anything else raises `ValueError` before any store call), then
the lookup/create/watch body. -/
def ipam_request_address_lease (expires now : Nat) (owner : String) (addr : List Nat)
    (dur : Nat) (lookup : LookupResult) : OpRes LeaseCall Unit :=
  if expires < now then ⟨[], .err .tokenExpired⟩
  else if addr.length = 4 then ipam_lease_body owner addr dur lookup
  else if addr.length = 16 then ipam_lease_body owner addr dur lookup
  else ⟨[], .err .valueError⟩

/-- Names of the leases a trace creates. -/
def leaseCreatedNames (calls : List LeaseCall) : List String :=
  calls.filterMap (fun c => match c with
    | .createLease n _ _ _ => some n
    | _ => none)

/-- The lease name a store call refers to. -/
def leaseCallName : LeaseCall → String
  | .getLease n => n
  | .createLease n _ _ _ => n
  | .watchLease n => n

/-- Store double for the lease flow: the lookup result is derived from the
set of existing lease names. -/
def leaseLookup (store : List String) (name : String) : LookupResult :=
  if name ∈ store then .found emptyStr else .notFound

/-- One client call against the lease store double: run the operation with
the lookup derived from the store, then apply its creates to the store. -/
def lease_step (expires now : Nat) (owner : String) (addr : List Nat) (dur : Nat)
    (store : List String) : List String × OpRes LeaseCall Unit :=
  let r := ipam_request_address_lease expires now owner addr dur
    (leaseLookup store (leaseName owner addr))
  (store ++ leaseCreatedNames r.calls, r)

def httpStr : String := "http"

def httpsStr : String := "https"

def unixStr : String := "unix"

def unixsStr : String := "unixs"

/-- Whether `needle` is an initial segment of `hay`. -/
def leadsWith : List Char → List Char → Bool
  | [], _ => true
  | _ :: _, [] => false
  | a :: as, b :: bs => a == b && leadsWith as bs

/-- Python substring containment, `needle in hay`. -/
def containsSeq (needle : List Char) : List Char → Bool
  | [] => leadsWith needle []
  | c :: rest => leadsWith needle (c :: rest) || containsSeq needle rest

def toLowerStr (s : String) : String := String.mk (s.data.map Char.toLower)

/-- The scheme guard of `ControllerClient.authenticate`:
`any(scheme.lower() in url.scheme.lower() for scheme in ["http", "unix"])` —
Python substring containment of "http" or "unix" in the lower-cased URI
scheme (the needles are already lower-case). -/
def schemeAccepted (scheme : String) : Bool :=
  containsSeq httpStr.data (toLowerStr scheme).data ||
    containsSeq unixStr.data (toLowerStr scheme).data

/-- What `authenticate` has done by the time the guard has run: whether it
went on to build a connector and open the HTTP session, and the `Error`
the guard raised if not. -/
structure AuthStart where
  connectionAttempted : Bool
  errorRaised : Option String
deriving DecidableEq

def invalidSchemeMsg (scheme : String) : String := "Invalid URI scheme " ++ scheme

/-- The start of `ControllerClient.authenticate`: the scheme guard is the
first statement, before any connector or session is constructed, so a
rejected scheme raises the configuration `Error` with no connection
attempt. -/
def authenticate_start (scheme : String) : AuthStart :=
  if schemeAccepted scheme then { connectionAttempted := true, errorRaised := none }
  else { connectionAttempted := false, errorRaised := some (invalidSchemeMsg scheme) }

/-- The scheme set the claim names: plaintext-over-trusted-channel and
mutually-authenticated TLS, i.e. the four schemes the source's guard is
described by — http, https, unix, unixs.  (Spec-side definition, for
comparison with `schemeAccepted`.) -/
def claimedAcceptedSchemes : List String := [httpStr, httpsStr, unixStr, unixsStr]

/-- How the scoped `authenticate` block exits: the body returned normally,
raised, or was cancelled (an exception thrown into the generator at the
`yield`). -/
inductive ScopeExit where
  | normal
  | raised
  | cancelled
deriving DecidableEq

/-- The cleanup actions that ran when the scope exited. -/
structure AuthCleanup where
  headerPopped : Bool
  closeCalled : Bool
deriving DecidableEq

/-- From `ControllerClient.authenticate`, lines 176-186: after the Authorization
header is set, the generator yields inside `try:`; the
`session.headers.pop("Authorization")` statement stands inside the `try`
block after the `yield`, so it executes only when the scope body returns
normally — a raised error or a cancellation propagates past it; the
`finally: session.close()` runs on every exit path. -/
def authenticate_exit (e : ScopeExit) : AuthCleanup :=
  { headerPopped := match e with
      | .normal => true
      | .raised => false
      | .cancelled => false
    closeCalled := true }

/-- Modelled from the spec: the request hash is "a stable hash of the
request's identity (its name)"; the source's `ipam_allocation_fulfill`
leaves it as a stub (`request_hash = ...`).  A 64-bit polynomial string
hash stands in for the unspecified stable hash. -/
def stableHash (s : String) : Nat :=
  s.data.foldl (fun h c => (h * 31 + c.toNat) % (2 ^ 64)) 7

/-- The Python set difference `all_addresses - allocated_address` of
`TunnelController.ipam_allocation_fulfill`.  The source's sets are
modelled as duplicate-free lists: the difference keeps the pool members
not in the allocated set, deduplicated, so it is order-insensitive up to
permutation (set semantics). -/
def availableAddresses (pool allocated : List Nat) : List Nat :=
  (pool.filter (fun a => decide (a ∉ allocated))).dedup

/-- Modelled from the spec: `get_address_by_hash` is called by
`TunnelController.ipam_allocation_fulfill` but nowhere defined in the
source; per the spec the hash deterministically indexes into the sorted
available set.  On an empty available set there is no address (`none`):
fulfillment cannot proceed. -/
def get_address_by_hash (h : Nat) (available : List Nat) : Option Nat :=
  List.get? (available.insertionSort (· ≤ ·))
    (h % (available.insertionSort (· ≤ ·)).length)

/-- From `TunnelController.ipam_allocation_fulfill`: `available_addresses =
all_addresses - allocated_address` is the source's; the pool and the
allocated set are the source's stubbed `set(...)` inputs, passed here as
parameters; hashing and selection are `stableHash` and
`get_address_by_hash` above (modelled from the spec). -/
def ipam_allocation_fulfill (name : String) (pool allocated : List Nat) : Option Nat :=
  get_address_by_hash (stableHash name) (availableAddresses pool allocated)

/-- One item of an `asyncio.gather(..., return_exceptions=True)` result
list: a caught exception, or the sub-operation's return value (which may
be Python `None`). -/
inductive GatherItem (α : Type) where
  | exc (msg : String)
  | res (v : Option α)
deriving DecidableEq

/-- The `map` step of `_asyncio_gather_filter_exceptions`: an exception is
passed to `_logger.exception`, whose return value is `None`; anything else
is kept as is. -/
def gatherLogStep {α : Type} : GatherItem α → Option α
  | .exc _ => none
  | .res v => v

/-- From `_asyncio_gather_filter_exceptions`: `gather` with
`return_exceptions=True` delivers every item's result without cancelling
siblings; the results are mapped with `gatherLogStep` and filtered by
`x is not None`. -/
def asyncio_gather_filter_exceptions {α : Type} (results : List (GatherItem α)) :
    List (Option α) :=
  (results.map gatherLogStep).filter (fun x => x.isSome)

/-- Concrete request name for exercising the fulfillment algorithm. -/
def c1name : String := "req-a"

def c2name : String := "n1"

def c2pk : List Nat := [0, 0, 0]

def c2k2 : List Nat := [0, 0, 1]

/-- base64 of `c2pk`. -/
def c2storedA : String := "AAAA"

/-- base64 of `c2k2`, a differing stored key. -/
def c2storedB : String := "AAAB"

def c3owner : String := "n1"

def c3addr : List Nat := [10, 0, 0, 1]

def c4name : String := "n4"

def c4pk : List Nat := [0, 0, 0]

def c4packed : String → List Nat := fun _ => []

def c4addr : List Nat := [10, 0, 0, 2]

def c6scheme : String := "xhttp"

def c6ftp : String := "ftp"

def c7owner : String := "n7"

def c7addr5 : List Nat := [1, 2, 3, 4, 5]

def c7addr4 : List Nat := [10, 0, 0, 3]

def c7addr16 : List Nat := [0, 1, 2, 3, 4, 5, 6, 7, 8, 9, 10, 11, 12, 13, 14, 15]

def c8owner : String := "n8"

def c8packed : String → List Nat := fun _ => [10, 0, 0, 1]

def addedStr : String := "ADDED"

def pendingStr : String := "pending"

def c8addrStr : String := "10.0.0.1"

def c8added : WatchEvent := { type := addedStr, state := pendingStr, address := emptyStr }

def c8fulfilled : WatchEvent :=
  { type := modifiedStr, state := fulfilledStr, address := c8addrStr }

def c9peerName : String := "p1"

def c9keyB64 : String := "AAAA"

def c9addrStr : String := "10.0.0.1"

def c9host : String := "h1"

/-- A store record carrying the seeding-ready label. -/
def c9rec : PeerRecord :=
  { name := c9peerName
    publicKey := c9keyB64
    addresses := [c9addrStr]
    endpoints := [(c9host, 51820)]
    labels := [(seedingPeerLabelKey, trueStr)] }

/-- Length of an all-ok option-valued map. -/
theorem mapOption_length {α β : Type} (f : α → Option β) :
    ∀ (l : List α) (l' : List β), mapOption f l = some l' → l'.length = l.length := by
  intro l
  induction l with
  | nil =>
    intro l' h
    simp [mapOption] at h
    simp [← h]
  | cons a t ih =>
    intro l' h
    cases hfa : f a with
    | none => simp [mapOption, hfa] at h
    | some b =>
      cases hmt : mapOption f t with
      | none => simp [mapOption, hfa, hmt] at h
      | some tl =>
        simp [mapOption, hfa, hmt] at h
        simp [← h, ih tl hmt]

/-- Claim C1: the controller's fulfillment algorithm is a deterministic
function of the request name and the available set (pool minus allocated):
equal available sets (up to permutation — list order is an artefact of the
model) yield equal selections, and on a non-empty available set the
selection is exactly the hash-indexed element of the sorted available set,
an address of the pool not yet allocated. -/
theorem ipam_allocation_fulfill_deterministic :
    (∀ (name : String) (p₁ a₁ p₂ a₂ : List Nat),
      List.Perm (availableAddresses p₁ a₁) (availableAddresses p₂ a₂) →
      ipam_allocation_fulfill name p₁ a₁ = ipam_allocation_fulfill name p₂ a₂) ∧
    (∀ (name : String) (pool allocated : List Nat),
      availableAddresses pool allocated ≠ [] →
      ∃ addr, ipam_allocation_fulfill name pool allocated = some addr ∧
        addr ∈ pool ∧ addr ∉ allocated ∧
        List.get? ((availableAddresses pool allocated).insertionSort (· ≤ ·))
          (stableHash name % (availableAddresses pool allocated).length) = some addr) := by
  constructor
  · intro name p₁ a₁ p₂ a₂ h
    unfold ipam_allocation_fulfill get_address_by_hash
    have hs : (availableAddresses p₁ a₁).insertionSort (· ≤ ·) =
        (availableAddresses p₂ a₂).insertionSort (· ≤ ·) := by
      refine List.eq_of_perm_of_sorted ?_ (List.sorted_insertionSort _ _)
        (List.sorted_insertionSort _ _)
      exact ((List.perm_insertionSort _ _).trans h).trans
        (List.perm_insertionSort _ _).symm
    rw [hs]
  · intro name pool allocated hne
    have hperm : List.Perm ((availableAddresses pool allocated).insertionSort (· ≤ ·))
        (availableAddresses pool allocated) := List.perm_insertionSort _ _
    have hlen : ((availableAddresses pool allocated).insertionSort (· ≤ ·)).length =
        (availableAddresses pool allocated).length := hperm.length_eq
    have hpos : 0 < ((availableAddresses pool allocated).insertionSort (· ≤ ·)).length := by
      rw [hlen]
      exact List.length_pos.mpr hne
    have hidx : stableHash name % ((availableAddresses pool allocated).insertionSort
        (· ≤ ·)).length < ((availableAddresses pool allocated).insertionSort
        (· ≤ ·)).length := Nat.mod_lt _ hpos
    have hmem : ((availableAddresses pool allocated).insertionSort (· ≤ ·)).get
        ⟨_, hidx⟩ ∈ availableAddresses pool allocated :=
      hperm.mem_iff.mp (List.get_mem _ _ _)
    have hmem2 := List.mem_filter.mp (List.mem_dedup.mp hmem)
    refine ⟨_, List.get?_eq_get hidx, hmem2.1, of_decide_eq_true hmem2.2, ?_⟩
    rw [← hlen]
    exact List.get?_eq_get hidx

/-- Claim C1 witness: with pool = two addresses and nothing allocated, the
fulfillment of request "req-a" selects the concrete address 2 (the hash of
the name indexes slot 1 of the sorted available set), and a permuted pool
selects the same address. -/
theorem ipam_allocation_fulfill_deterministic_witness :
    ipam_allocation_fulfill c1name [1, 2] [] = some 2 ∧
    ipam_allocation_fulfill c1name [2, 1] [] = ipam_allocation_fulfill c1name [1, 2] [] := by
  constructor
  · obtain ⟨addr, ha, _, _, hidx⟩ :=
      ipam_allocation_fulfill_deterministic.2 c1name [1, 2] [] (by decide)
    have hv : List.get? ((availableAddresses [1, 2] []).insertionSort (· ≤ ·))
        (stableHash c1name % (availableAddresses [1, 2] []).length) = some 2 := by decide
    rw [hidx] at hv
    injection hv with hv
    rw [ha, hv]
  · exact ipam_allocation_fulfill_deterministic.1 c1name [2, 1] [] [1, 2] [] (by decide)

/-- Claim C2: `register_node` is an idempotent upsert.  With a live session:
an existing record whose stored key decodes to the supplied key issues no
write (the trace is the lookup only); a differing stored key issues exactly
one patch holding a single replace of `/spec/publicKey`; an absent record
issues exactly one create with the supplied key and empty address and
endpoint lists. -/
theorem register_node_idempotent_upsert :
    ∀ (expires now : Nat) (name : String) (pk : List Nat), ¬ (expires < now) →
      (∀ stored, base64Decode stored = some pk →
        register_node expires now name (.found stored) pk = ⟨[.getPeer name], .ok ()⟩) ∧
      (∀ stored k, base64Decode stored = some k → pk ≠ k →
        register_node expires now name (.found stored) pk =
          ⟨[.getPeer name,
            .patchPeer name [⟨opReplace, publicKeyPath, base64Encode pk⟩]], .ok ()⟩) ∧
      register_node expires now name .notFound pk =
        ⟨[.getPeer name, .createPeer name (base64Encode pk) [] []], .ok ()⟩ := by
  intro expires now name pk hval
  refine ⟨?_, ?_, ?_⟩
  · intro stored hdec
    simp [register_node, hval, hdec]
  · intro stored k hdec hne
    simp [register_node, hval, hdec, hne]
  · simp [register_node, hval]

/-- Claim C2 witness: concrete runs of the three cases — same stored key:
lookup only, zero writes; differing stored key: exactly the single-replace
patch; absent: exactly the create with empty lists. -/
theorem register_node_idempotent_upsert_witness :
    register_node 1 0 c2name (.found c2storedA) c2pk = ⟨[.getPeer c2name], .ok ()⟩ ∧
    register_node 1 0 c2name (.found c2storedB) c2pk =
      ⟨[.getPeer c2name,
        .patchPeer c2name [⟨opReplace, publicKeyPath, base64Encode c2pk⟩]], .ok ()⟩ ∧
    register_node 1 0 c2name .notFound c2pk =
      ⟨[.getPeer c2name, .createPeer c2name (base64Encode c2pk) [] []], .ok ()⟩ := by
  have h := register_node_idempotent_upsert 1 0 c2name c2pk (by decide)
  exact ⟨h.1 c2storedA (by decide), h.2.1 c2storedB c2k2 (by decide) (by decide), h.2.2⟩

/-- A lease-step run whose lookup finds the lease: the trace is the lookup
only, the outcome is the no-op success, and the store is unchanged. -/
theorem lease_step_found (e n : Nat) (owner : String) (addr : List Nat) (dur : Nat)
    (store : List String) (hexp : ¬ (e < n)) (hlen : addr.length = 4 ∨ addr.length = 16)
    (hmem : leaseName owner addr ∈ store) :
    lease_step e n owner addr dur store =
      (store, ⟨[.getLease (leaseName owner addr)], .ok ()⟩) := by
  rcases hlen with h | h <;>
    simp [lease_step, ipam_request_address_lease, hexp, h, leaseLookup, hmem,
      ipam_lease_body, leaseCreatedNames]

/-- A lease-step run whose lookup misses: the trace is lookup, create,
watch; the outcome is success; the created lease name is appended to the
store. -/
theorem lease_step_notFound (e n : Nat) (owner : String) (addr : List Nat) (dur : Nat)
    (store : List String) (hexp : ¬ (e < n)) (hlen : addr.length = 4 ∨ addr.length = 16)
    (hmem : leaseName owner addr ∉ store) :
    lease_step e n owner addr dur store =
      (store ++ [leaseName owner addr],
        ⟨[.getLease (leaseName owner addr),
          .createLease (leaseName owner addr) owner addr dur,
          .watchLease (leaseName owner addr)], .ok ()⟩) := by
  rcases hlen with h | h <;>
    simp [lease_step, ipam_request_address_lease, hexp, h, leaseLookup, hmem,
      ipam_lease_body, leaseCreatedNames]

/-- Claim C3: with a live session and a valid packed address, every store
call of a lease request targets the deterministic name computed from
(owner, address); running the request twice against the store double
succeeds both times, the second run issues no create, and the store after
the second run equals the store after the first (never a second lease
object; at most one lease is ever added). -/
theorem ipam_lease_request_idempotent :
    ∀ (expires now : Nat) (owner : String) (addr : List Nat) (dur : Nat)
      (store : List String), ¬ (expires < now) → (addr.length = 4 ∨ addr.length = 16) →
      (∀ c ∈ (lease_step expires now owner addr dur store).2.calls,
        leaseCallName c = leaseName owner addr) ∧
      (lease_step expires now owner addr dur store).2.outcome = .ok () ∧
      (lease_step expires now owner addr dur
        (lease_step expires now owner addr dur store).1).2.outcome = .ok () ∧
      leaseCreatedNames (lease_step expires now owner addr dur
        (lease_step expires now owner addr dur store).1).2.calls = [] ∧
      (lease_step expires now owner addr dur
        (lease_step expires now owner addr dur store).1).1 =
        (lease_step expires now owner addr dur store).1 ∧
      (lease_step expires now owner addr dur store).1.length ≤ store.length + 1 := by
  intro e n owner addr dur store hexp hlen
  by_cases hmem : leaseName owner addr ∈ store
  · have h1 := lease_step_found e n owner addr dur store hexp hlen hmem
    have hfst : (lease_step e n owner addr dur store).1 = store := by rw [h1]
    refine ⟨?_, ?_, ?_, ?_, ?_, ?_⟩
    · intro c hc
      rw [h1] at hc
      simp at hc
      simp [hc, leaseCallName]
    · rw [h1]
    · rw [hfst, h1]
    · rw [hfst, h1]
      rfl
    · rw [hfst, h1]
    · rw [hfst]
      exact Nat.le_succ _
  · have h1 := lease_step_notFound e n owner addr dur store hexp hlen hmem
    have hfst : (lease_step e n owner addr dur store).1 =
        store ++ [leaseName owner addr] := by rw [h1]
    have hmem2 : leaseName owner addr ∈ store ++ [leaseName owner addr] := by simp
    have h2 := lease_step_found e n owner addr dur (store ++ [leaseName owner addr])
      hexp hlen hmem2
    refine ⟨?_, ?_, ?_, ?_, ?_, ?_⟩
    · intro c hc
      rw [h1] at hc
      simp at hc
      rcases hc with hc | hc | hc <;> simp [hc, leaseCallName]
    · rw [h1]
    · rw [hfst, h2]
    · rw [hfst, h2]
      rfl
    · rw [hfst, h2]
    · rw [hfst]
      simp

/-- Claim C3 witness: a concrete double run against an initially empty
store — both runs succeed, the second run creates nothing, and the store
is unchanged by the second run. -/
theorem ipam_lease_request_idempotent_witness :
    (lease_step 1 0 c3owner c3addr 5 []).2.outcome = .ok () ∧
    (lease_step 1 0 c3owner c3addr 5 (lease_step 1 0 c3owner c3addr 5 []).1).2.outcome =
      .ok () ∧
    leaseCreatedNames (lease_step 1 0 c3owner c3addr 5
      (lease_step 1 0 c3owner c3addr 5 []).1).2.calls = [] ∧
    (lease_step 1 0 c3owner c3addr 5 (lease_step 1 0 c3owner c3addr 5 []).1).1 =
      (lease_step 1 0 c3owner c3addr 5 []).1 := by
  have h := ipam_lease_request_idempotent 1 0 c3owner c3addr 5 [] (by decide) (by decide)
  exact ⟨h.2.1, h.2.2.1, h.2.2.2.1, h.2.2.2.2.1⟩

/-- Claim C7: with a live session, a packed address whose length is neither
4 nor 16 makes `ipam_request_address_lease` raise the validation error with
an empty trace (no store call); lengths 4 and 16 pass the validation — the
outcome is never the validation error. -/
theorem ipam_lease_address_length_validation :
    ∀ (expires now : Nat) (owner : String) (addr : List Nat) (dur : Nat)
      (lookup : LookupResult), ¬ (expires < now) →
      (addr.length ≠ 4 → addr.length ≠ 16 →
        ipam_request_address_lease expires now owner addr dur lookup =
          ⟨[], .err .valueError⟩) ∧
      ((addr.length = 4 ∨ addr.length = 16) →
        (ipam_request_address_lease expires now owner addr dur lookup).outcome ≠
          .err .valueError) := by
  intro e n owner addr dur lookup hexp
  constructor
  · intro h4 h16
    simp [ipam_request_address_lease, hexp, h4, h16]
  · intro hlen
    have hbody : ipam_request_address_lease e n owner addr dur lookup =
        ipam_lease_body owner addr dur lookup := by
      rcases hlen with h | h <;> simp [ipam_request_address_lease, hexp, h]
    rw [hbody]
    cases lookup <;> simp [ipam_lease_body]

/-- Claim C7 witness: a 5-byte address raises the validation error with no
store call; a 4-byte and a 16-byte address proceed to the lookup and
succeed. -/
theorem ipam_lease_address_length_validation_witness :
    ipam_request_address_lease 1 0 c7owner c7addr5 9 .notFound = ⟨[], .err .valueError⟩ ∧
    (ipam_request_address_lease 1 0 c7owner c7addr4 9 .notFound).outcome = .ok () ∧
    (ipam_request_address_lease 1 0 c7owner c7addr16 9 .notFound).outcome = .ok () := by
  refine ⟨(ipam_lease_address_length_validation 1 0 c7owner c7addr5 9 .notFound
    (by decide)).1 (by decide) (by decide), rfl, rfl⟩

/-- Claim C4 counterexample: at `now = expires` (both 5) the claimed
assertion "now is strictly before expires" is violated — `5 < 5` is false —
yet `register_node` raises nothing: it performs its store calls and
succeeds, contradicting the claim as stated. -/
theorem session_expiry_strict_counterexample :
    decide (5 < 5) = false ∧
    register_node 5 5 c4name .notFound c4pk =
      ⟨[.getPeer c4name, .createPeer c4name (base64Encode c4pk) [] []], .ok ()⟩ :=
  ⟨rfl, rfl⟩

/-- Claim C4 (amended): every session-bound operation checks the token
first, and whenever `expires < now` it raises `SessionTokenExpired` with an
empty store-call trace — no network call.  (The source's guard is
`expires < time.time()`, i.e. it asserts `now ≤ expires`, not the claimed
strict `now < expires`.) -/
theorem session_expiry_guard :
    ∀ (expires now : Nat), expires < now →
      (∀ (name : String) (lookup : LookupResult) (pk : List Nat),
        register_node expires now name lookup pk = ⟨[], .err .tokenExpired⟩) ∧
      (∀ records, get_seeding_peers expires now records = ⟨[], .err .tokenExpired⟩) ∧
      (∀ (owner : String) (packed : String → List Nat) (events : List WatchEvent),
        ipam_request_address_allocation expires now owner packed events =
          ⟨[], .err .tokenExpired⟩) ∧
      (∀ (owner : String) (addr : List Nat) (dur : Nat) (lookup : LookupResult),
        ipam_request_address_lease expires now owner addr dur lookup =
          ⟨[], .err .tokenExpired⟩) := by
  intro e n hlt
  refine ⟨fun name lookup pk => ?_, fun records => ?_, fun owner packed events => ?_,
    fun owner addr dur lookup => ?_⟩ <;>
    simp [register_node, get_seeding_peers, ipam_request_address_allocation,
      ipam_request_address_lease, hlt]

/-- Claim C4 witness: with the token expired (`expires = 0 < now = 1`) each
of the four session-bound operations raises the expiry error and issues no
store call. -/
theorem session_expiry_guard_witness :
    register_node 0 1 c4name .notFound c4pk = ⟨[], .err .tokenExpired⟩ ∧
    get_seeding_peers 0 1 [] = ⟨[], .err .tokenExpired⟩ ∧
    ipam_request_address_allocation 0 1 c4name c4packed [] = ⟨[], .err .tokenExpired⟩ ∧
    ipam_request_address_lease 0 1 c4name c4addr 5 .notFound = ⟨[], .err .tokenExpired⟩ := by
  have h := session_expiry_guard 0 1 (by decide)
  exact ⟨h.1 c4name .notFound c4pk, h.2.1 [], h.2.2.1 c4name c4packed [],
    h.2.2.2 c4name c4addr 5 .notFound⟩

/-- Claim C5 (code bug): the Authorization header is popped only on the
normal exit path of the `authenticate` scope — on a raised error or a
cancellation the pop, which the source places inside the `try` block after
the `yield` instead of in the `finally`, is skipped; only the close in the
`finally` runs on every exit. -/
theorem authenticate_header_retained_on_error :
    authenticate_exit .raised = { headerPopped := false, closeCalled := true } ∧
    authenticate_exit .cancelled = { headerPopped := false, closeCalled := true } ∧
    authenticate_exit .normal = { headerPopped := true, closeCalled := true } :=
  ⟨rfl, rfl, rfl⟩

/-- Claim C6 counterexample: the scheme "xhttp" is not one of the four
schemes the claim allows (http, https, unix, unixs), yet `authenticate`
accepts it — the guard passes and the connection is attempted — because the
source tests Python substring containment of "http"/"unix", not scheme
equality. -/
theorem authenticate_scheme_counterexample :
    authenticate_start c6scheme = { connectionAttempted := true, errorRaised := none } ∧
    claimedAcceptedSchemes.contains c6scheme = false :=
  ⟨rfl, rfl⟩

/-- Claim C6 (amended): `authenticate` accepts exactly those endpoint URI
schemes that contain "http" or "unix" as a case-insensitive substring — in
particular http, https, unix and unixs are accepted — and every scheme
containing neither fails with the configuration error before any connection
attempt. -/
theorem authenticate_scheme_guard :
    ∀ scheme : String,
      (schemeAccepted scheme = false →
        authenticate_start scheme =
          { connectionAttempted := false, errorRaised := some (invalidSchemeMsg scheme) }) ∧
      (schemeAccepted scheme = true →
        authenticate_start scheme = { connectionAttempted := true, errorRaised := none }) ∧
      (scheme ∈ claimedAcceptedSchemes → schemeAccepted scheme = true) := by
  intro scheme
  refine ⟨fun h => ?_, fun h => ?_, fun h => ?_⟩
  · simp [authenticate_start, h]
  · simp [authenticate_start, h]
  · simp [claimedAcceptedSchemes] at h
    rcases h with h | h | h | h <;> subst h <;> decide

/-- Claim C6 witness: the scheme "ftp" is rejected with the configuration
error and no connection attempt; the scheme "https" is accepted. -/
theorem authenticate_scheme_guard_witness :
    authenticate_start c6ftp =
      { connectionAttempted := false, errorRaised := some (invalidSchemeMsg c6ftp) } ∧
    authenticate_start httpsStr = { connectionAttempted := true, errorRaised := none } :=
  ⟨(authenticate_scheme_guard c6ftp).1 (by decide),
   (authenticate_scheme_guard httpsStr).2.1 (by decide)⟩

/-- Claim C8: the allocation watch skips every event whose kind is not
"MODIFIED"; when it returns an address, some modified event with state
`fulfilled` occurred and the returned value is the packed form of that
event's status address; and with a live session the allocation request
returns exactly the watch's result after creating the allocation. -/
theorem allocation_watch_modified_only :
    (∀ (packed : String → List Nat) (e : WatchEvent) (rest : List WatchEvent),
      e.type ≠ modifiedStr →
      allocationWatchResult packed (e :: rest) = allocationWatchResult packed rest) ∧
    (∀ (packed : String → List Nat) (events : List WatchEvent) (addr : List Nat),
      allocationWatchResult packed events = some addr →
      ∃ ev, ev ∈ events ∧ ev.type = modifiedStr ∧ ev.state = fulfilledStr ∧
        addr = packed ev.address) ∧
    (∀ (expires now : Nat) (owner : String) (packed : String → List Nat)
      (events : List WatchEvent), ¬ (expires < now) →
      ipam_request_address_allocation expires now owner packed events =
        ⟨[.createAllocation owner, .watchAllocation],
          .ok (allocationWatchResult packed events)⟩) := by
  refine ⟨?_, ?_, ?_⟩
  · intro packed e rest h
    simp [allocationWatchResult, h]
  · intro packed events
    induction events with
    | nil =>
      intro addr h
      simp [allocationWatchResult] at h
    | cons e rest ih =>
      intro addr h
      by_cases ht : e.type = modifiedStr
      · by_cases hs : e.state = fulfilledStr
        · refine ⟨e, List.mem_cons_self _ _, ht, hs, ?_⟩
          simp [allocationWatchResult, ht, hs] at h
          exact h.symm
        · obtain ⟨ev, hmem, h1, h2, h3⟩ :=
            ih addr (by simpa [allocationWatchResult, ht, hs] using h)
          exact ⟨ev, List.mem_cons_of_mem _ hmem, h1, h2, h3⟩
      · obtain ⟨ev, hmem, h1, h2, h3⟩ :=
          ih addr (by simpa [allocationWatchResult, ht] using h)
        exact ⟨ev, List.mem_cons_of_mem _ hmem, h1, h2, h3⟩
  · intro e n owner packed events hexp
    simp [ipam_request_address_allocation, hexp]

/-- Claim C8 witness: an "ADDED" event is skipped (the watch result over
the two-event stream equals the result over the fulfilling tail), and a
live-session allocation request returns the watch's result after creating
the allocation. -/
theorem allocation_watch_modified_only_witness :
    allocationWatchResult c8packed [c8added, c8fulfilled] =
      allocationWatchResult c8packed [c8fulfilled] ∧
    ipam_request_address_allocation 1 0 c8owner c8packed [c8added, c8fulfilled] =
      ⟨[.createAllocation c8owner, .watchAllocation],
        .ok (allocationWatchResult c8packed [c8added, c8fulfilled])⟩ :=
  ⟨allocation_watch_modified_only.1 c8packed c8added [c8fulfilled] (by decide),
   allocation_watch_modified_only.2.2 1 0 c8owner c8packed [c8added, c8fulfilled]
     (by decide)⟩

/-- Claim C9: with a live session, `get_seeding_peers` raises
`NoSeedingPeers` exactly when the set of records carrying the seeding-ready
label is empty; a successful result decodes every matching record (one
`NetworkPeer` per matching record); and with a single matching record whose
key decodes, the result is exactly that one decoded peer with addresses and
endpoints carried over. -/
theorem get_seeding_peers_spec :
    ∀ (expires now : Nat) (records : List PeerRecord), ¬ (expires < now) →
      ((get_seeding_peers expires now records).outcome = .err .noSeedingPeers ↔
        seedingMatches records = []) ∧
      (∀ peers, (get_seeding_peers expires now records).outcome = .ok peers →
        mapOption decodePeer (seedingMatches records) = some peers ∧
        peers.length = (seedingMatches records).length) ∧
      (∀ r k, seedingMatches records = [r] → base64Decode r.publicKey = some k →
        (get_seeding_peers expires now records).outcome =
          .ok [{ name := r.name, public_key := k, addresses := r.addresses,
                 endpoints := r.endpoints }]) := by
  intro e n records hexp
  have key3 : ∀ r k, seedingMatches records = [r] → base64Decode r.publicKey = some k →
      (get_seeding_peers e n records).outcome =
        .ok [{ name := r.name, public_key := k, addresses := r.addresses,
               endpoints := r.endpoints }] := by
    intro r k hm hdec
    have hlen1 : (seedingMatches records).length = 1 := by rw [hm]; rfl
    have hmo2 : mapOption decodePeer (seedingMatches records) =
        some [{ name := r.name, public_key := k, addresses := r.addresses,
                endpoints := r.endpoints }] := by
      rw [hm]
      simp [mapOption, decodePeer, hdec]
    simp [get_seeding_peers, hexp, hlen1, hmo2]
  by_cases hlen : (seedingMatches records).length = 0
  · have hnil : seedingMatches records = [] := List.length_eq_zero.mp hlen
    refine ⟨?_, ?_, key3⟩
    · simp [get_seeding_peers, hexp, hlen, hnil]
    · intro peers hok
      simp [get_seeding_peers, hexp, hlen] at hok
  · cases hmo : mapOption decodePeer (seedingMatches records) with
    | none =>
      refine ⟨?_, ?_, key3⟩
      · constructor
        · intro h
          simp [get_seeding_peers, hexp, hlen, hmo] at h
        · intro h
          exact absurd (by rw [h]; rfl) hlen
      · intro peers hok
        simp [get_seeding_peers, hexp, hlen, hmo] at hok
    | some peers0 =>
      refine ⟨?_, ?_, key3⟩
      · constructor
        · intro h
          simp [get_seeding_peers, hexp, hlen, hmo] at h
        · intro h
          exact absurd (by rw [h]; rfl) hlen
      · intro peers hok
        simp [get_seeding_peers, hexp, hlen, hmo] at hok
        subst hok
        exact ⟨rfl, mapOption_length _ _ _ hmo⟩

/-- Claim C9 witness: against a store with no matching record the call
raises `NoSeedingPeers`; with the one labeled record `c9rec` it returns the
single decoded peer — base64-decoded key, addresses and endpoints carried
over. -/
theorem get_seeding_peers_spec_witness :
    (get_seeding_peers 1 0 []).outcome = .err .noSeedingPeers ∧
    (get_seeding_peers 1 0 [c9rec]).outcome =
      .ok [{ name := c9peerName, public_key := [0, 0, 0], addresses := [c9addrStr],
             endpoints := [(c9host, 51820)] }] := by
  constructor
  · exact (get_seeding_peers_spec 1 0 [] (by decide)).1.mpr (by decide)
  · exact (get_seeding_peers_spec 1 0 [c9rec] (by decide)).2.2 c9rec [0, 0, 0]
      (by decide) (by decide)

/-- Claim C10: the gather-and-filter helper returns exactly the
sub-operation results that are neither exceptions nor None — the output is
the filtered-and-mapped value list in order (so a failing item is dropped
without affecting its siblings, and a None-valued success is dropped
too). -/
theorem gather_filter_exceptions_spec :
    ∀ (α : Type) (rs : List (GatherItem α)),
      asyncio_gather_filter_exceptions rs = (rs.filterMap gatherLogStep).map some ∧
      (∀ a : α, some a ∈ asyncio_gather_filter_exceptions rs ↔
        GatherItem.res (some a) ∈ rs) := by
  intro α rs
  have key : asyncio_gather_filter_exceptions rs = (rs.filterMap gatherLogStep).map some := by
    induction rs with
    | nil => rfl
    | cons x t ih =>
      cases x with
      | exc m =>
        simpa [asyncio_gather_filter_exceptions, gatherLogStep, List.filterMap_cons]
          using ih
      | res v =>
        cases v with
        | none =>
          simpa [asyncio_gather_filter_exceptions, gatherLogStep, List.filterMap_cons]
            using ih
        | some b =>
          simpa [asyncio_gather_filter_exceptions, gatherLogStep, List.filterMap_cons]
            using ih
  refine ⟨key, fun a => ?_⟩
  rw [key]
  simp only [List.mem_map, List.mem_filterMap, Option.some.injEq]
  constructor
  · rintro ⟨b, ⟨x, hx, hfx⟩, hba⟩
    subst hba
    cases x with
    | exc m => simp [gatherLogStep] at hfx
    | res v =>
      simp [gatherLogStep] at hfx
      subst hfx
      exact hx
  · intro h
    exact ⟨a, ⟨.res (some a), h, rfl⟩, rfl⟩

end Tunnel
